import Mathlib

/-!
Verification of `scaleSingleTrackMesh.py` (abaqusGenericCodes).

The script normalizes nodal coordinates, resolves named node sets into
per-axis ordered region lists, and applies a piecewise-affine scaling with a
running translation so regions stay contiguous.  Coordinates are modelled as
rationals; Python list indexing (including negative-index wraparound) and
Python runtime failures (ValueError on `min([])`, IndexError, NameError) are
modelled explicitly with `Option`, `none` standing for an uncaught exception.
-/

set_option maxRecDepth 8000

/- Batteries marks the rational operations irreducible; restore default
reducibility so that concrete runs of the embedded program evaluate. -/
attribute [local semireducible] Rat.add Rat.sub Rat.mul

namespace ScaleMesh

/-- A named node set as parsed from the inp file: a name (matched
case-insensitively) and the member node ids. -/
structure NodeSet where
  name : String
  nodes : List Nat
deriving DecidableEq

/-- Per-set summary along one axis: the set name together with the min and max
member coordinate (lines 86-98 of the source, one axis). -/
structure SetSummary where
  name : String
  smin : ℚ
  smax : ℚ
deriving DecidableEq

/-- An entry of the per-axis Ordered Region List: role name, scale factor and
resolved bounds. -/
structure Region where
  name : String
  factor : ℚ
  rmin : ℚ
  rmax : ℚ
deriving DecidableEq

/-- The sentinel "unset" value `1E20` used when the scaled-coordinate arrays
are created (lines 215/230/245). -/
def SENTINEL : ℚ := 10 ^ 20

/-- Python's `str.upper()` for the ASCII set names of this script: uppercase
every character. -/
def upperStr (s : String) : String := ⟨s.data.map Char.toUpper⟩

/-- Python list-index resolution for a list of length `n`: a nonnegative index
must be `< n`; a negative index `i` addresses `n + i` when `0 ≤ n + i`;
anything else raises IndexError (`none`). -/
def pyIndex (n : Nat) (i : Int) : Option Nat :=
  if 0 ≤ i then (if i < (n : Int) then some i.toNat else none)
  else (if 0 ≤ (n : Int) + i then some ((n : Int) + i).toNat else none)

/-- Python read `l[i]`. -/
def pyGet (l : List ℚ) (i : Int) : Option ℚ :=
  (pyIndex l.length i).bind fun j => l.get? j

/-- Python write `l[i] = v`. -/
def pySet (l : List ℚ) (i : Int) (v : ℚ) : Option (List ℚ) :=
  (pyIndex l.length i).map fun j => l.set j v

/-- Python `min` over a list; ValueError (`none`) on the empty list. -/
def listMin : List ℚ → Option ℚ
  | [] => none
  | c :: cs => some (cs.foldl min c)

/-- Python `max` over a list; ValueError (`none`) on the empty list. -/
def listMax : List ℚ → Option ℚ
  | [] => none
  | c :: cs => some (cs.foldl max c)

/-- Lines 74-80 (one axis): subtract the global minimum coordinate from every
coordinate. -/
def translateCoords (cs : List ℚ) : Option (List ℚ) :=
  (listMin cs).map fun m => cs.map fun c => c - m

/-- Lines 87-89 (one axis): the member coordinates of a set,
`[coords[id-1] for id in nodes]` with Python indexing. -/
def setCoords (coords : List ℚ) : List Nat → Option (List ℚ)
  | [] => some []
  | id :: ids =>
    match pyGet coords ((id : Int) - 1) with
    | none => none
    | some c =>
      match setCoords coords ids with
      | none => none
      | some cs => some (c :: cs)

/-- One iteration of the loop at lines 86-98 (one axis): min and max member
coordinate of one node set. -/
def summarizeSet (coords : List ℚ) (st : NodeSet) : Option SetSummary :=
  match setCoords coords st.nodes with
  | none => none
  | some cs =>
    match listMin cs, listMax cs with
    | some mn, some mx => some ⟨st.name, mn, mx⟩
    | _, _ => none

/-- Lines 86-98 (one axis): per-set min/max summaries, in node-set order. -/
def summarize (coords : List ℚ) : List NodeSet → Option (List SetSummary)
  | [] => some []
  | st :: rest =>
    match summarizeSet coords st with
    | none => none
    | some s =>
      match summarize coords rest with
      | none => none
      | some ss => some (s :: ss)

/-- Lines 102-117: case-insensitive lookup of a boundary set's minimum
coordinate; the loop overwrites on every match so the last match wins, and a
missing set leaves the variable unbound (NameError, `none`). -/
def boundaryMin (summaries : List SetSummary) (target : String) : Option ℚ :=
  summaries.foldl
    (fun acc s => if upperStr s.name = upperStr target then some s.smin else acc) none

/-- The ascending (left-to-right) role order for the Length axis
(lines 120-124). -/
def namesAlongLengthAscending : List String :=
  ["setControllingBasePlateLengthLeftMost",
   "setControllingBasePlateLengthLeft",
   "setControllingDepositLength",
   "setControllingBasePlateLengthRight",
   "setControllingBasePlateLengthRightMost"]

/-- Lines 119-137: the ordered role-name list for the Length axis. -/
def orderedNamesAlongLength (minYleft minYright : ℚ) : List String :=
  if minYleft < minYright then
    ["setControllingBasePlateLengthLeftMost",
     "setControllingBasePlateLengthLeft",
     "setControllingDepositLength",
     "setControllingBasePlateLengthRight",
     "setControllingBasePlateLengthRightMost"]
  else
    ["setControllingBasePlateLengthRightMost",
     "setControllingBasePlateLengthRight",
     "setControllingDepositLength",
     "setControllingBasePlateLengthLeft",
     "setControllingBasePlateLengthLeftMost"]

/-- Lines 126-143: the scale-factor list matching `orderedNamesAlongLength`. -/
def orderedFactorsAlongLength (minYleft minYright f1 f2 f3 f4 f5 : ℚ) : List ℚ :=
  if minYleft < minYright then [f1, f2, f3, f4, f5] else [f5, f4, f3, f2, f1]

/-- The ascending role order for the Width axis (lines 154-158). -/
def namesAlongWidthAscending : List String :=
  ["setControllingBasePlateWidthLeftMost",
   "setControllingBasePlateWidthLeft",
   "setControllingDepositWidth",
   "setControllingBasePlateWidthRight",
   "setControllingBasePlateWidthRightMost"]

/-- Lines 153-171: the ordered role-name list for the Width axis. -/
def orderedNamesAlongWidth (minXleft minXright : ℚ) : List String :=
  if minXleft < minXright then
    ["setControllingBasePlateWidthLeftMost",
     "setControllingBasePlateWidthLeft",
     "setControllingDepositWidth",
     "setControllingBasePlateWidthRight",
     "setControllingBasePlateWidthRightMost"]
  else
    ["setControllingBasePlateWidthRightMost",
     "setControllingBasePlateWidthRight",
     "setControllingDepositWidth",
     "setControllingBasePlateWidthLeft",
     "setControllingBasePlateWidthLeftMost"]

/-- Lines 160-177: the scale-factor list matching `orderedNamesAlongWidth`. -/
def orderedFactorsAlongWidth (minXleft minXright f1 f2 f3 f4 f5 : ℚ) : List ℚ :=
  if minXleft < minXright then [f1, f2, f3, f4, f5] else [f5, f4, f3, f2, f1]

/-- The ascending (bottom-to-top) role order for the Depth axis
(lines 188-190). -/
def namesAlongDepthAscending : List String :=
  ["setControllingBasePlateDepthBottom",
   "setControllingBasePlateDepthTop",
   "setControllingDepositDepth"]

/-- Lines 187-199: the ordered role-name list for the Depth axis. -/
def orderedNamesAlongDepth (minZbottom minZtop : ℚ) : List String :=
  if minZbottom < minZtop then
    ["setControllingBasePlateDepthBottom",
     "setControllingBasePlateDepthTop",
     "setControllingDepositDepth"]
  else
    ["setControllingDepositDepth",
     "setControllingBasePlateDepthTop",
     "setControllingBasePlateDepthBottom"]

/-- Lines 192-203: the scale-factor list matching `orderedNamesAlongDepth`. -/
def orderedFactorsAlongDepth (minZbottom minZtop fB fT fD : ℚ) : List ℚ :=
  if minZbottom < minZtop then [fB, fT, fD] else [fD, fT, fB]

/-- Lines 113-117 and 187-203: the Depth ordering inference.  The "bottom"
minimum is read from `setControllingBasePlateDepthBottom`; the "top" minimum
is read from `setControllingDepositDepth` (line 115 of the source matches that
name, not `setControllingBasePlateDepthTop`). -/
def orderingAlongDepth (summaries : List SetSummary) (fB fT fD : ℚ) :
    Option (List String × List ℚ) :=
  match boundaryMin summaries "setControllingBasePlateDepthBottom",
        boundaryMin summaries "setControllingDepositDepth" with
  | some minZbottom, some minZtop =>
      some (orderedNamesAlongDepth minZbottom minZtop,
            orderedFactorsAlongDepth minZbottom minZtop fB fT fD)
  | _, _ => none

/-- Inner loop of lines 145-151: every summary whose name matches the role
name (case-insensitively) contributes its (min, max) pair, in encounter
order. -/
def matchBounds (summaries : List SetSummary) (nm : String) : List (ℚ × ℚ) :=
  match summaries with
  | [] => []
  | s :: rest =>
    if upperStr s.name = upperStr nm then (s.smin, s.smax) :: matchBounds rest nm
    else matchBounds rest nm

/-- Lines 145-151: the per-role bounds lists built by appending one pair per
matching set, role by role. -/
def boundsForOrdering (summaries : List SetSummary) : List String → List (ℚ × ℚ)
  | [] => []
  | nm :: rest => matchBounds summaries nm ++ boundsForOrdering summaries rest

/-- The assignment expression of lines 224-225:
`translationTotal + minForThisRegion + (coord - minForThisRegion) * factor`. -/
def writeVal (T rmin s c : ℚ) : ℚ := T + rmin + (c - rmin) * s

/-- Lines 223-225: assign the scaled coordinate of every node id of one set,
with Python indexing on both the read and the write. -/
def assignNodes (coords : List ℚ) (rmin s T : ℚ) : List Nat → List ℚ → Option (List ℚ)
  | [], scaled => some scaled
  | id :: ids, scaled =>
    match pyGet coords ((id : Int) - 1) with
    | none => none
    | some c =>
      match pySet scaled ((id : Int) - 1) (writeVal T rmin s c) with
      | none => none
      | some scaled2 => assignNodes coords rmin s T ids scaled2

/-- Lines 221-225: run the node assignment for every node set whose name
matches the current role name. -/
def assignSets (coords : List ℚ) (nm : String) (rmin s T : ℚ) :
    List NodeSet → List ℚ → Option (List ℚ)
  | [], scaled => some scaled
  | st :: rest, scaled =>
    if upperStr st.name = upperStr nm then
      match assignNodes coords rmin s T st.nodes scaled with
      | none => none
      | some scaled2 => assignSets coords nm rmin s T rest scaled2
    else assignSets coords nm rmin s T rest scaled

/-- Lines 216-226: the per-axis scaling loop.  `k` is the loop index into the
(parallel, but possibly desynchronized) bounds and factor lists; a read past
their end is an IndexError (`none`).  After each region the running
translation grows by `(max - min) * (factor - 1)`. -/
def scaleRegions (sets : List NodeSet) (coords : List ℚ) (factors : List ℚ)
    (bounds : List (ℚ × ℚ)) : List String → Nat → ℚ → List ℚ → Option (List ℚ)
  | [], _, _, scaled => some scaled
  | nm :: rest, k, T, scaled =>
    match bounds.get? k with
    | none => none
    | some (mn, mx) =>
      match factors.get? k with
      | none => none
      | some f =>
        match assignSets coords nm mn f T sets scaled with
        | none => none
        | some scaled2 =>
          scaleRegions sets coords factors bounds rest (k + 1)
            (T + (mx - mn) * (f - 1)) scaled2

/-- One axis of the pipeline from the per-set summary loop to the scaling
loop: lines 86-98 and 145-151 and 214-226. -/
def processAxis (sets : List NodeSet) (coords : List ℚ) (ordered : List String)
    (factors : List ℚ) : Option (List ℚ) :=
  match summarize coords sets with
  | none => none
  | some summaries =>
    scaleRegions sets coords factors (boundsForOrdering summaries ordered) ordered
      0 0 (List.replicate coords.length SENTINEL)

/-- The bounds pair of a resolved region. -/
def regionBounds (r : Region) : ℚ × ℚ := (r.rmin, r.rmax)

/-- The scaling loop run on an Ordered Region List whose names, factors and
bounds are correctly aligned (the well-formed instantiation of
lines 214-226). -/
def runAxis (sets : List NodeSet) (coords : List ℚ) (rs : List Region) :
    Option (List ℚ) :=
  scaleRegions sets coords (rs.map Region.factor) (rs.map regionBounds)
    (rs.map Region.name) 0 0 (List.replicate coords.length SENTINEL)

/-- Structural form of the scaling loop when names, factors and bounds come
aligned from one region list; proved equal to `runAxis` below. -/
def scaleRegionsAligned (sets : List NodeSet) (coords : List ℚ) :
    List Region → ℚ → List ℚ → Option (List ℚ)
  | [], _, scaled => some scaled
  | r :: rest, T, scaled =>
    match assignSets coords r.name r.rmin r.factor T sets scaled with
    | none => none
    | some scaled2 =>
      scaleRegionsAligned sets coords rest
        (T + (r.rmax - r.rmin) * (r.factor - 1)) scaled2

/-- Node `id` belongs to the region named `nm`: some node set with a
case-insensitively matching name contains `id`. -/
def nodeInRegion (sets : List NodeSet) (nm : String) (id : Nat) : Bool :=
  sets.any fun st => upperStr st.name = upperStr nm && st.nodes.contains id

/-- The contribution of one region to the running translation (line 226). -/
def regionIncr (r : Region) : ℚ := (r.rmax - r.rmin) * (r.factor - 1)

/-- The running translation in force when region `k` of the list is processed:
the sum of the span changes of all earlier regions. -/
def transAt (rs : List Region) (k : Nat) : ℚ := ((rs.take k).map regionIncr).sum

/-- Node `id` belongs to the region at position `j` of the region list. -/
def containsAt (sets : List NodeSet) (rs : List Region) (id j : Nat) : Bool :=
  match rs.get? j with
  | some r => nodeInRegion sets r.name id
  | none => false

/-- Lines 258-266: the output rows, one `(node id, x, y, z)` row per node in
node order; an IndexError (`none`) if a coordinate list is shorter than the
node list. -/
def writeOutput : List Nat → List ℚ → List ℚ → List ℚ →
    Option (List (Nat × ℚ × ℚ × ℚ))
  | [], _, _, _ => some []
  | nd :: nds, x :: xs, y :: ys, z :: zs =>
    (writeOutput nds xs ys zs).map fun rows => (nd, x, y, z) :: rows
  | _ :: _, _, _, _ => none

/-! ### Basic lemmas about the Python indexing model -/

lemma pyIndex_pos (n id : Nat) (h1 : 1 ≤ id) :
    pyIndex n ((id : Int) - 1) = if id - 1 < n then some (id - 1) else none := by
  unfold pyIndex
  rw [if_pos (by omega : (0 : Int) ≤ (id : Int) - 1)]
  by_cases h : id - 1 < n
  · rw [if_pos (by omega), if_pos h]
    congr 1
    omega
  · rw [if_neg (by omega), if_neg h]

lemma pyGet_pos (l : List ℚ) (id : Nat) (h1 : 1 ≤ id) :
    pyGet l ((id : Int) - 1) = l.get? (id - 1) := by
  unfold pyGet
  rw [pyIndex_pos l.length id h1]
  by_cases h : id - 1 < l.length
  · rw [if_pos h]
    rfl
  · rw [if_neg h]
    have hn : l.get? (id - 1) = none := List.get?_eq_none.mpr (by omega)
    rw [hn]
    rfl

lemma pySet_pos (l : List ℚ) (id : Nat) (v : ℚ) (h1 : 1 ≤ id) :
    pySet l ((id : Int) - 1) v =
      if id - 1 < l.length then some (l.set (id - 1) v) else none := by
  unfold pySet
  rw [pyIndex_pos l.length id h1]
  by_cases h : id - 1 < l.length
  · rw [if_pos h, if_pos h]
    rfl
  · rw [if_neg h, if_neg h]
    rfl

lemma pySet_length {l l' : List ℚ} {i : Int} {v : ℚ} (h : pySet l i v = some l') :
    l'.length = l.length := by
  unfold pySet at h
  cases hj : pyIndex l.length i with
  | none => rw [hj] at h; exact Option.noConfusion h
  | some j =>
    rw [hj] at h
    simp only [Option.map_some'] at h
    cases h
    exact List.length_set l j v

lemma get?_replicate (a : ℚ) (n i : Nat) (h : i < n) :
    (List.replicate n a).get? i = some a := by
  induction n generalizing i with
  | zero => omega
  | succ n ih =>
    cases i with
    | zero => rfl
    | succ i => simpa [List.replicate_succ] using ih i (by omega)

lemma get?_append_cons {α : Type} (l1 : List α) (a : α) (l2 : List α) :
    (l1 ++ a :: l2).get? l1.length = some a := by
  induction l1 with
  | nil => rfl
  | cons b l ih => simpa using ih

/-! ### The node-assignment loop -/

lemma assignNodes_length {coords : List ℚ} {rmin s T : ℚ} {ids : List Nat}
    {scaled out : List ℚ} (h : assignNodes coords rmin s T ids scaled = some out) :
    out.length = scaled.length := by
  induction ids generalizing scaled with
  | nil =>
    simp only [assignNodes] at h
    cases h
    rfl
  | cons id ids ih =>
    simp only [assignNodes] at h
    cases hg : pyGet coords ((id : Int) - 1) with
    | none =>
      simp only [hg] at h
      exact Option.noConfusion h
    | some c =>
      simp only [hg] at h
      cases hs : pySet scaled ((id : Int) - 1) (writeVal T rmin s c) with
      | none =>
        simp only [hs] at h
        exact Option.noConfusion h
      | some scaled2 =>
        simp only [hs] at h
        rw [ih h]
        exact pySet_length hs

lemma assignNodes_get_other {coords : List ℚ} {rmin s T : ℚ} {ids : List Nat}
    {scaled out : List ℚ} {i : Nat}
    (hall : ∀ id ∈ ids, 1 ≤ id) (hni : (i + 1) ∉ ids)
    (h : assignNodes coords rmin s T ids scaled = some out) :
    out.get? i = scaled.get? i := by
  induction ids generalizing scaled with
  | nil =>
    simp only [assignNodes] at h
    cases h
    rfl
  | cons id ids ih =>
    have hid1 : 1 ≤ id := hall id (List.mem_cons_self id ids)
    have hne : id ≠ i + 1 := fun hc => hni (hc ▸ List.mem_cons_self id ids)
    simp only [assignNodes] at h
    cases hg : pyGet coords ((id : Int) - 1) with
    | none =>
      simp only [hg] at h
      exact Option.noConfusion h
    | some c =>
      simp only [hg] at h
      cases hs : pySet scaled ((id : Int) - 1) (writeVal T rmin s c) with
      | none =>
        simp only [hs] at h
        exact Option.noConfusion h
      | some scaled2 =>
        simp only [hs] at h
        have hrest := ih (fun x hx => hall x (List.mem_cons_of_mem id hx))
          (fun hc => hni (List.mem_cons_of_mem id hc)) h
        rw [hrest]
        rw [pySet_pos scaled id _ hid1] at hs
        by_cases hlt : id - 1 < scaled.length
        · rw [if_pos hlt] at hs
          cases hs
          exact List.get?_set_ne _ _ (by omega)
        · rw [if_neg hlt] at hs
          exact Option.noConfusion hs

lemma assignNodes_get_mem {coords : List ℚ} {rmin s T : ℚ} {ids : List Nat}
    {scaled out : List ℚ} {id : Nat}
    (hall : ∀ x ∈ ids, 1 ≤ x) (hid : id ∈ ids)
    (h : assignNodes coords rmin s T ids scaled = some out) :
    ∃ c, pyGet coords ((id : Int) - 1) = some c ∧
      out.get? (id - 1) = some (writeVal T rmin s c) := by
  induction ids generalizing scaled with
  | nil => exact absurd hid (List.not_mem_nil id)
  | cons id' ids ih =>
    have hid1' : 1 ≤ id' := hall id' (List.mem_cons_self id' ids)
    simp only [assignNodes] at h
    cases hg : pyGet coords ((id' : Int) - 1) with
    | none =>
      simp only [hg] at h
      exact Option.noConfusion h
    | some c' =>
      simp only [hg] at h
      cases hs : pySet scaled ((id' : Int) - 1) (writeVal T rmin s c') with
      | none =>
        simp only [hs] at h
        exact Option.noConfusion h
      | some scaled2 =>
        simp only [hs] at h
        by_cases hmem : id ∈ ids
        · exact ih (fun x hx => hall x (List.mem_cons_of_mem id' hx)) hmem h
        · have hee : id = id' := by
            cases List.mem_cons.mp hid with
            | inl h0 => exact h0
            | inr h0 => exact absurd h0 hmem
          subst hee
          refine ⟨c', hg, ?_⟩
          have hother : out.get? (id - 1) = scaled2.get? (id - 1) :=
            assignNodes_get_other (fun x hx => hall x (List.mem_cons_of_mem id hx))
              (by rwa [Nat.sub_add_cancel (by omega)]) h
          rw [hother]
          rw [pySet_pos scaled id _ hid1'] at hs
          by_cases hlt : id - 1 < scaled.length
          · rw [if_pos hlt] at hs
            cases hs
            exact List.get?_set_eq_of_lt _ (by simpa using hlt)
          · rw [if_neg hlt] at hs
            exact Option.noConfusion hs

/-! ### The per-region set loop -/

lemma nodeInRegion_iff {sets : List NodeSet} {nm : String} {id : Nat} :
    nodeInRegion sets nm id = true ↔
      ∃ st ∈ sets, upperStr st.name = upperStr nm ∧ id ∈ st.nodes := by
  simp [nodeInRegion, List.any_eq_true]

lemma nodeInRegion_false_cons {st : NodeSet} {sets : List NodeSet} {nm : String}
    {id : Nat} (h : nodeInRegion (st :: sets) nm id = false) :
    (¬(upperStr st.name = upperStr nm ∧ id ∈ st.nodes)) ∧
      nodeInRegion sets nm id = false := by
  constructor
  · rintro ⟨h1, h2⟩
    have hc : nodeInRegion (st :: sets) nm id = true :=
      nodeInRegion_iff.mpr ⟨st, List.mem_cons_self st sets, h1, h2⟩
    rw [h] at hc
    exact Bool.noConfusion hc
  · cases hb : nodeInRegion sets nm id with
    | false => rfl
    | true =>
      obtain ⟨st', hst', hh⟩ := nodeInRegion_iff.mp hb
      have hc : nodeInRegion (st :: sets) nm id = true :=
        nodeInRegion_iff.mpr ⟨st', List.mem_cons_of_mem st hst', hh⟩
      rw [h] at hc
      exact Bool.noConfusion hc

lemma assignSets_length {coords : List ℚ} {nm : String} {rmin s T : ℚ}
    {sets : List NodeSet} {scaled out : List ℚ}
    (h : assignSets coords nm rmin s T sets scaled = some out) :
    out.length = scaled.length := by
  induction sets generalizing scaled with
  | nil =>
    simp only [assignSets] at h
    cases h
    rfl
  | cons st rest ih =>
    simp only [assignSets] at h
    by_cases hm : upperStr st.name = upperStr nm
    · rw [if_pos hm] at h
      cases ha : assignNodes coords rmin s T st.nodes scaled with
      | none =>
        simp only [ha] at h
        exact Option.noConfusion h
      | some scaled2 =>
        simp only [ha] at h
        rw [ih h]
        exact assignNodes_length ha
    · rw [if_neg hm] at h
      exact ih h

lemma assignSets_get_other {coords : List ℚ} {nm : String} {rmin s T : ℚ}
    {sets : List NodeSet} {scaled out : List ℚ} {i : Nat}
    (hall : ∀ st ∈ sets, ∀ x ∈ st.nodes, 1 ≤ x)
    (hni : nodeInRegion sets nm (i + 1) = false)
    (h : assignSets coords nm rmin s T sets scaled = some out) :
    out.get? i = scaled.get? i := by
  induction sets generalizing scaled with
  | nil =>
    simp only [assignSets] at h
    cases h
    rfl
  | cons st rest ih =>
    obtain ⟨hst, hrest⟩ := nodeInRegion_false_cons hni
    simp only [assignSets] at h
    by_cases hm : upperStr st.name = upperStr nm
    · rw [if_pos hm] at h
      cases ha : assignNodes coords rmin s T st.nodes scaled with
      | none =>
        simp only [ha] at h
        exact Option.noConfusion h
      | some scaled2 =>
        simp only [ha] at h
        rw [ih (fun x hx => hall x (List.mem_cons_of_mem st hx)) hrest h]
        exact assignNodes_get_other (hall st (List.mem_cons_self st rest))
          (fun hmem => hst ⟨hm, hmem⟩) ha
    · rw [if_neg hm] at h
      exact ih (fun x hx => hall x (List.mem_cons_of_mem st hx)) hrest h

lemma assignSets_get_mem {coords : List ℚ} {nm : String} {rmin s T : ℚ}
    {sets : List NodeSet} {scaled out : List ℚ} {id : Nat}
    (hall : ∀ st ∈ sets, ∀ x ∈ st.nodes, 1 ≤ x)
    (hmem : nodeInRegion sets nm id = true) (h1 : 1 ≤ id)
    (h : assignSets coords nm rmin s T sets scaled = some out) :
    ∃ c, pyGet coords ((id : Int) - 1) = some c ∧
      out.get? (id - 1) = some (writeVal T rmin s c) := by
  induction sets generalizing scaled with
  | nil => simp [nodeInRegion] at hmem
  | cons st rest ih =>
    simp only [assignSets] at h
    cases hb : nodeInRegion rest nm id with
    | true =>
      by_cases hm : upperStr st.name = upperStr nm
      · rw [if_pos hm] at h
        cases ha : assignNodes coords rmin s T st.nodes scaled with
        | none =>
          simp only [ha] at h
          exact Option.noConfusion h
        | some scaled2 =>
          simp only [ha] at h
          exact ih (fun x hx => hall x (List.mem_cons_of_mem st hx)) hb h
      · rw [if_neg hm] at h
        exact ih (fun x hx => hall x (List.mem_cons_of_mem st hx)) hb h
    | false =>
      have hst : upperStr st.name = upperStr nm ∧ id ∈ st.nodes := by
        obtain ⟨st', hmem', hup, hin⟩ := nodeInRegion_iff.mp hmem
        cases List.mem_cons.mp hmem' with
        | inl he =>
          subst he
          exact ⟨hup, hin⟩
        | inr he =>
          have hc : nodeInRegion rest nm id = true :=
            nodeInRegion_iff.mpr ⟨st', he, hup, hin⟩
          rw [hb] at hc
          exact Bool.noConfusion hc
      rw [if_pos hst.1] at h
      cases ha : assignNodes coords rmin s T st.nodes scaled with
      | none =>
        simp only [ha] at h
        exact Option.noConfusion h
      | some scaled2 =>
        simp only [ha] at h
        obtain ⟨c, hc, hval⟩ :=
          assignNodes_get_mem (hall st (List.mem_cons_self st rest)) hst.2 ha
        refine ⟨c, hc, ?_⟩
        rw [assignSets_get_other (fun x hx => hall x (List.mem_cons_of_mem st hx))
          (by rwa [Nat.sub_add_cancel h1]) h]
        exact hval

/-! ### The region loop over an aligned region list -/

lemma transAt_cons (r : Region) (rest : List Region) (k : Nat) :
    transAt (r :: rest) (k + 1) = regionIncr r + transAt rest k := by
  simp [transAt, List.take_succ_cons]

lemma scaleRegionsAligned_get_other {sets : List NodeSet} {coords : List ℚ}
    {rs : List Region} {T : ℚ} {scaled out : List ℚ} {i : Nat}
    (hall : ∀ st ∈ sets, ∀ x ∈ st.nodes, 1 ≤ x)
    (hni : ∀ r ∈ rs, nodeInRegion sets r.name (i + 1) = false)
    (h : scaleRegionsAligned sets coords rs T scaled = some out) :
    out.get? i = scaled.get? i := by
  induction rs generalizing T scaled with
  | nil =>
    simp only [scaleRegionsAligned] at h
    cases h
    rfl
  | cons r rest ih =>
    simp only [scaleRegionsAligned] at h
    cases ha : assignSets coords r.name r.rmin r.factor T sets scaled with
    | none =>
      simp only [ha] at h
      exact Option.noConfusion h
    | some scaled2 =>
      simp only [ha] at h
      rw [ih (fun r' hr' => hni r' (List.mem_cons_of_mem r hr')) h]
      exact assignSets_get_other hall (hni r (List.mem_cons_self r rest)) ha

lemma scaleRegionsAligned_last {sets : List NodeSet} {coords : List ℚ}
    {rs : List Region} {T : ℚ} {scaled out : List ℚ} {k : Nat} {r : Region} {id : Nat}
    (hall : ∀ st ∈ sets, ∀ x ∈ st.nodes, 1 ≤ x)
    (hk : rs.get? k = some r)
    (hmem : nodeInRegion sets r.name id = true)
    (hlast : ∀ j rj, k < j → rs.get? j = some rj → nodeInRegion sets rj.name id = false)
    (h1 : 1 ≤ id)
    (h : scaleRegionsAligned sets coords rs T scaled = some out) :
    ∃ c, pyGet coords ((id : Int) - 1) = some c ∧
      out.get? (id - 1) = some (writeVal (T + transAt rs k) r.rmin r.factor c) := by
  induction rs generalizing k T scaled with
  | nil => exact Option.noConfusion hk
  | cons r0 rest ih =>
    simp only [scaleRegionsAligned] at h
    cases ha : assignSets coords r0.name r0.rmin r0.factor T sets scaled with
    | none =>
      simp only [ha] at h
      exact Option.noConfusion h
    | some scaled2 =>
      simp only [ha] at h
      cases k with
      | zero =>
        have hr : r0 = r := by simpa using hk
        subst hr
        obtain ⟨c, hc, hval⟩ := assignSets_get_mem hall hmem h1 ha
        refine ⟨c, hc, ?_⟩
        have hother : out.get? (id - 1) = scaled2.get? (id - 1) := by
          apply scaleRegionsAligned_get_other hall ?_ h
          intro r' hr'
          obtain ⟨j, hj⟩ := List.get?_of_mem hr'
          have hfalse := hlast (j + 1) r' (by omega) (by simpa using hj)
          rw [Nat.sub_add_cancel h1]
          exact hfalse
        rw [hother, hval]
        simp [transAt]
      | succ k' =>
        have hk' : rest.get? k' = some r := by simpa using hk
        have hlast' : ∀ j rj, k' < j → rest.get? j = some rj →
            nodeInRegion sets rj.name id = false := by
          intro j rj hj hget
          exact hlast (j + 1) rj (by omega) (by simpa using hget)
        obtain ⟨c, hc, hval⟩ := ih hk' hlast' h
        refine ⟨c, hc, ?_⟩
        have harith : T + (r0.rmax - r0.rmin) * (r0.factor - 1) + transAt rest k'
            = T + transAt (r0 :: rest) (k' + 1) := by
          rw [transAt_cons]
          unfold regionIncr
          ring
        rw [hval, harith]

/-! ### Bridge between the index-based loop and the aligned recursion -/

lemma scaleRegions_eq_aligned (sets : List NodeSet) (coords : List ℚ)
    (pre rs : List Region) (T : ℚ) (scaled : List ℚ) :
    scaleRegions sets coords ((pre ++ rs).map Region.factor)
      ((pre ++ rs).map regionBounds) (rs.map Region.name) pre.length T scaled
      = scaleRegionsAligned sets coords rs T scaled := by
  induction rs generalizing pre T scaled with
  | nil => rfl
  | cons r rest ih =>
    have hb : ((pre ++ r :: rest).map regionBounds).get? pre.length
        = some (regionBounds r) := by
      rw [List.map_append, List.map_cons, ← List.length_map pre regionBounds]
      exact get?_append_cons _ _ _
    have hf : ((pre ++ r :: rest).map Region.factor).get? pre.length
        = some (r.factor) := by
      rw [List.map_append, List.map_cons, ← List.length_map pre Region.factor]
      exact get?_append_cons _ _ _
    simp only [List.map_cons, scaleRegions, scaleRegionsAligned, hb, hf, regionBounds]
    cases ha : assignSets coords r.name r.rmin r.factor T sets scaled with
    | none => rfl
    | some scaled2 =>
      have := ih (pre ++ [r]) (T + (r.rmax - r.rmin) * (r.factor - 1)) scaled2
      simpa [List.append_assoc] using this

lemma runAxis_eq_aligned (sets : List NodeSet) (coords : List ℚ) (rs : List Region) :
    runAxis sets coords rs
      = scaleRegionsAligned sets coords rs 0 (List.replicate coords.length SENTINEL) := by
  have h := scaleRegions_eq_aligned sets coords [] rs 0
    (List.replicate coords.length SENTINEL)
  simpa [runAxis] using h

/-! ### Greatest containing region -/

lemma exists_greatest {P : Nat → Prop} {n : Nat}
    (hbound : ∀ j, P j → j < n) (hex : ∃ j, P j) :
    ∃ k, P k ∧ ∀ j, k < j → ¬P j := by
  induction n with
  | zero =>
    obtain ⟨j, hj⟩ := hex
    exact absurd (hbound j hj) (by omega)
  | succ n ih =>
    by_cases hn : P n
    · exact ⟨n, hn, fun j hj hPj => by have := hbound j hPj; omega⟩
    · apply ih
      intro j hj
      have hlt := hbound j hj
      rcases Nat.lt_succ_iff_lt_or_eq.mp hlt with h' | h'
      · exact h'
      · subst h'
        exact absurd hj hn

lemma exists_last_region {sets : List NodeSet} {rs : List Region} {id : Nat}
    (h : ∃ j r, rs.get? j = some r ∧ nodeInRegion sets r.name id = true) :
    ∃ k r, rs.get? k = some r ∧ nodeInRegion sets r.name id = true ∧
      ∀ j rj, k < j → rs.get? j = some rj → nodeInRegion sets rj.name id = false := by
  obtain ⟨j0, r0, hj0, hmem0⟩ := h
  have hex : ∃ j, ∃ rj, rs.get? j = some rj ∧ nodeInRegion sets rj.name id = true :=
    ⟨j0, r0, hj0, hmem0⟩
  have hbound : ∀ j, (∃ rj, rs.get? j = some rj ∧ nodeInRegion sets rj.name id = true) →
      j < rs.length := by
    rintro j ⟨rj, hj, _⟩
    obtain ⟨hlt, _⟩ := List.get?_eq_some.mp hj
    exact hlt
  obtain ⟨k, ⟨r, hk, hmem⟩, hmax⟩ := exists_greatest hbound hex
  refine ⟨k, r, hk, hmem, ?_⟩
  intro j rj hj hget
  cases hbool : nodeInRegion sets rj.name id with
  | false => rfl
  | true => exact absurd ⟨rj, hget, hbool⟩ (hmax j hj)

/-! ### The output writer -/

lemma writeOutput_get {nds : List Nat} {xs ys zs : List ℚ}
    {rows : List (Nat × ℚ × ℚ × ℚ)} {i : Nat} {nd : Nat}
    (h : writeOutput nds xs ys zs = some rows) (hnd : nds.get? i = some nd) :
    ∃ x y z, xs.get? i = some x ∧ ys.get? i = some y ∧ zs.get? i = some z ∧
      rows.get? i = some (nd, x, y, z) := by
  induction nds generalizing xs ys zs rows i with
  | nil => exact Option.noConfusion hnd
  | cons nd0 nds ih =>
    cases xs with
    | nil =>
      simp only [writeOutput] at h
      exact Option.noConfusion h
    | cons x xs =>
      cases ys with
      | nil =>
        simp only [writeOutput] at h
        exact Option.noConfusion h
      | cons y ys =>
        cases zs with
        | nil =>
          simp only [writeOutput] at h
          exact Option.noConfusion h
        | cons z zs =>
          simp only [writeOutput] at h
          cases hw : writeOutput nds xs ys zs with
          | none =>
            rw [hw] at h
            simp at h
          | some rows' =>
            rw [hw] at h
            simp only [Option.map_some'] at h
            cases h
            cases i with
            | zero =>
              cases hnd
              exact ⟨x, y, z, rfl, rfl, rfl, rfl⟩
            | succ i =>
              simp only [List.get?_cons_succ] at hnd ⊢
              exact ih hw hnd

lemma transAt_succ {rs : List Region} {k : Nat} {r : Region} (hk : rs.get? k = some r) :
    transAt rs (k + 1) = transAt rs k + regionIncr r := by
  unfold transAt
  rw [List.take_succ]
  have hg : rs[k]? = some r := by
    rw [← List.get?_eq_getElem?]
    exact hk
  rw [hg]
  simp

/-! ### Claim theorems -/

/-- C1: walking the Ordered Region List in order with a running translation
initialized to 0, every node whose last containing region (in processing
order) is the k-th region, with bounds `[rmin, rmax]` and scale factor `s`,
receives the scaled coordinate `T_k + rmin + (c - rmin) * s`, where `c` is the
node's normalized original coordinate and `T_k` (`transAt rs k`) is the sum
over all earlier regions `j < k` of `(rmax_j - rmin_j) * (s_j - 1)`. -/
theorem C1_piecewise_affine_value (sets : List NodeSet) (coords : List ℚ)
    (rs : List Region) (out : List ℚ) (id k : Nat) (r : Region) (c : ℚ)
    (hall : ∀ st ∈ sets, ∀ x ∈ st.nodes, 1 ≤ x)
    (hrun : runAxis sets coords rs = some out)
    (hk : rs.get? k = some r)
    (hmem : nodeInRegion sets r.name id = true)
    (hlast : ∀ j rj, k < j → rs.get? j = some rj → nodeInRegion sets rj.name id = false)
    (h1 : 1 ≤ id)
    (hc : pyGet coords ((id : Int) - 1) = some c) :
    out.get? (id - 1) = some (transAt rs k + r.rmin + (c - r.rmin) * r.factor) := by
  rw [runAxis_eq_aligned] at hrun
  obtain ⟨c', hc', hval⟩ := scaleRegionsAligned_last hall hk hmem hlast h1 hrun
  rw [hc] at hc'
  cases hc'
  rw [hval]
  unfold writeVal
  rw [zero_add]

/-- Concrete instantiation of `C1_piecewise_affine_value`: a two-region axis
where node 2 lies in region "B" only. -/
theorem C1_piecewise_affine_value_witness :
    ([0, 5] : List ℚ).get? (2 - 1)
      = some (transAt [⟨"A", 2, 0, 0⟩, ⟨"B", 3, 5, 5⟩] 1 + (5 : ℚ) + ((5 : ℚ) - 5) * 3) :=
  C1_piecewise_affine_value [⟨"A", [1]⟩, ⟨"B", [2]⟩] [0, 5]
    [⟨"A", 2, 0, 0⟩, ⟨"B", 3, 5, 5⟩] [0, 5] 2 1 ⟨"B", 3, 5, 5⟩ 5
    (by decide) (by decide) (by decide) (by decide)
    (by
      intro j rj hj hget
      rw [List.get?_eq_none.mpr (by simp; omega)] at hget
      exact Option.noConfusion hget)
    (by decide) (by decide)

/-- C2: if adjacent regions k and k+1 of the Ordered Region List share their
boundary (region k's maximum equals region k+1's minimum), then a node sitting
at region k's maximum (assigned by region k) and a node sitting at region
k+1's minimum (assigned by region k+1) receive the same scaled coordinate,
because the running translation grows by `(rmax - rmin) * (s - 1)` after each
region. -/
theorem C2_contiguity (sets : List NodeSet) (coords : List ℚ) (rs : List Region)
    (out : List ℚ) (k : Nat) (rk rk1 : Region) (a b : Nat)
    (hall : ∀ st ∈ sets, ∀ x ∈ st.nodes, 1 ≤ x)
    (hrun : runAxis sets coords rs = some out)
    (hk : rs.get? k = some rk) (hk1 : rs.get? (k + 1) = some rk1)
    (hshare : rk.rmax = rk1.rmin)
    (ha1 : 1 ≤ a) (hb1 : 1 ≤ b)
    (hamem : nodeInRegion sets rk.name a = true)
    (halast : ∀ j rj, k < j → rs.get? j = some rj → nodeInRegion sets rj.name a = false)
    (hbmem : nodeInRegion sets rk1.name b = true)
    (hblast : ∀ j rj, k + 1 < j → rs.get? j = some rj → nodeInRegion sets rj.name b = false)
    (hca : pyGet coords ((a : Int) - 1) = some rk.rmax)
    (hcb : pyGet coords ((b : Int) - 1) = some rk1.rmin) :
    out.get? (a - 1) = out.get? (b - 1) := by
  rw [runAxis_eq_aligned] at hrun
  obtain ⟨ca, hca', hva⟩ := scaleRegionsAligned_last hall hk hamem halast ha1 hrun
  obtain ⟨cb, hcb', hvb⟩ := scaleRegionsAligned_last hall hk1 hbmem hblast hb1 hrun
  rw [hca] at hca'
  cases hca'
  rw [hcb] at hcb'
  cases hcb'
  rw [hva, hvb]
  have htr : transAt rs (k + 1) = transAt rs k + regionIncr rk := transAt_succ hk
  congr 1
  rw [htr, ← hshare]
  unfold writeVal regionIncr
  ring

/-- Concrete instantiation of `C2_contiguity`: regions `[0,2]` (scale 2) and
`[2,5]` (scale 1) sharing the boundary coordinate 2. -/
theorem C2_contiguity_witness :
    ([0, 4, 4, 7] : List ℚ).get? (2 - 1) = ([0, 4, 4, 7] : List ℚ).get? (3 - 1) :=
  C2_contiguity [⟨"A", [1, 2]⟩, ⟨"B", [3, 4]⟩] [0, 2, 2, 5]
    [⟨"A", 2, 0, 2⟩, ⟨"B", 1, 2, 5⟩] [0, 4, 4, 7] 0 ⟨"A", 2, 0, 2⟩ ⟨"B", 1, 2, 5⟩ 2 3
    (by decide) (by decide) (by decide) (by decide) (by decide) (by decide) (by decide)
    (by decide)
    (by
      intro j rj hj hget
      rcases j with _ | _ | j
      · omega
      · cases hget
        decide
      · rw [List.get?_eq_none.mpr (by simp)] at hget
        exact Option.noConfusion hget)
    (by decide)
    (by
      intro j rj hj hget
      rcases j with _ | _ | j
      · omega
      · omega
      · rw [List.get?_eq_none.mpr (by simp)] at hget
        exact Option.noConfusion hget)
    (by decide) (by decide)

/-- C3: if every scale factor of an axis's region list equals 1, then for
every node belonging to at least one controlling region of the axis, the
scaled coordinate equals the normalized (translated-to-zero) original
coordinate exactly. -/
theorem C3_identity_scaling (raw coords : List ℚ) (sets : List NodeSet)
    (rs : List Region) (out : List ℚ) (id : Nat)
    (hall : ∀ st ∈ sets, ∀ x ∈ st.nodes, 1 ≤ x)
    (htr : translateCoords raw = some coords)
    (hfac : ∀ r ∈ rs, r.factor = 1)
    (hrun : runAxis sets coords rs = some out)
    (hmem : ∃ j r, rs.get? j = some r ∧ nodeInRegion sets r.name id = true)
    (h1 : 1 ≤ id) :
    out.get? (id - 1) = pyGet coords ((id : Int) - 1) := by
  obtain ⟨k, r, hk, hmemk, hlast⟩ := exists_last_region hmem
  rw [runAxis_eq_aligned] at hrun
  obtain ⟨c, hc, hval⟩ := scaleRegionsAligned_last hall hk hmemk hlast h1 hrun
  rw [hval, hc]
  have hfr : r.factor = 1 := hfac r (List.get?_mem hk)
  have htrans : transAt rs k = 0 := by
    unfold transAt
    apply List.sum_eq_zero
    intro x hx
    obtain ⟨rr, hrr, rfl⟩ := List.mem_map.mp hx
    have hrr1 : rr.factor = 1 := hfac rr (List.take_subset _ _ hrr)
    simp [regionIncr, hrr1]
  rw [htrans, hfr]
  unfold writeVal
  congr 1
  ring

/-- Concrete instantiation of `C3_identity_scaling`: scale factor 1 leaves the
normalized coordinates unchanged. -/
theorem C3_identity_scaling_witness :
    ([0, 1] : List ℚ).get? (2 - 1) = pyGet [0, 1] (((2 : Nat) : Int) - 1) :=
  C3_identity_scaling [1, 2] [0, 1] [⟨"A", [1, 2]⟩] [⟨"A", 1, 0, 1⟩] [0, 1] 2
    (by decide) (by decide) (by decide) (by decide)
    ⟨0, ⟨"A", 1, 0, 1⟩, by decide, by decide⟩ (by decide)

/-- C8: last-write-wins — if a node belongs to more than one region of the
Ordered Region List, its final scaled coordinate is the assignment computed by
the region processed last; assignments from earlier regions are overwritten. -/
theorem C8_last_write_wins (sets : List NodeSet) (coords : List ℚ)
    (rs : List Region) (out : List ℚ) (id k : Nat) (r : Region) (c : ℚ)
    (hall : ∀ st ∈ sets, ∀ x ∈ st.nodes, 1 ≤ x)
    (hrun : runAxis sets coords rs = some out)
    (hk : rs.get? k = some r)
    (hmem : nodeInRegion sets r.name id = true)
    (hmulti : ∃ j rj, j < k ∧ rs.get? j = some rj ∧ nodeInRegion sets rj.name id = true)
    (hlast : ∀ j rj, k < j → rs.get? j = some rj → nodeInRegion sets rj.name id = false)
    (h1 : 1 ≤ id)
    (hc : pyGet coords ((id : Int) - 1) = some c) :
    out.get? (id - 1) = some (transAt rs k + r.rmin + (c - r.rmin) * r.factor) := by
  rw [runAxis_eq_aligned] at hrun
  obtain ⟨c', hc', hval⟩ := scaleRegionsAligned_last hall hk hmem hlast h1 hrun
  rw [hc] at hc'
  cases hc'
  rw [hval]
  unfold writeVal
  rw [zero_add]

/-- Concrete instantiation of `C8_last_write_wins`: node 2 belongs to both
regions; its final value is region B's assignment. -/
theorem C8_last_write_wins_witness :
    ([0, 3] : List ℚ).get? (2 - 1)
      = some (transAt [⟨"A", 3, 0, 1⟩, ⟨"B", 2, 1, 1⟩] 1 + (1 : ℚ) + ((1 : ℚ) - 1) * 2) :=
  C8_last_write_wins [⟨"A", [1, 2]⟩, ⟨"B", [2]⟩] [0, 1]
    [⟨"A", 3, 0, 1⟩, ⟨"B", 2, 1, 1⟩] [0, 3] 2 1 ⟨"B", 2, 1, 1⟩ 1
    (by decide) (by decide) (by decide) (by decide)
    ⟨0, ⟨"A", 3, 0, 1⟩, by omega, by decide, by decide⟩
    (by
      intro j rj hj hget
      rw [List.get?_eq_none.mpr (by simp; omega)] at hget
      exact Option.noConfusion hget)
    (by decide) (by decide)

/-- C4: for each axis, if the minimum coordinate of the left/bottom boundary
set is strictly less than the minimum coordinate of the right/top boundary
set, the region roles are ordered in their canonical ascending order;
otherwise (including equal minima) the entire ordered role list and its
parallel scale-factor list are reversed end-to-end as a unit, keeping each
role paired with its own scale factor. -/
theorem C4_ordering_inference :
    (∀ minL minR : ℚ, orderedNamesAlongLength minL minR =
        if minL < minR then namesAlongLengthAscending
        else namesAlongLengthAscending.reverse)
  ∧ (∀ minL minR f1 f2 f3 f4 f5 : ℚ,
      orderedFactorsAlongLength minL minR f1 f2 f3 f4 f5 =
        if minL < minR then [f1, f2, f3, f4, f5] else [f1, f2, f3, f4, f5].reverse)
  ∧ (∀ minL minR : ℚ, orderedNamesAlongWidth minL minR =
        if minL < minR then namesAlongWidthAscending
        else namesAlongWidthAscending.reverse)
  ∧ (∀ minL minR f1 f2 f3 f4 f5 : ℚ,
      orderedFactorsAlongWidth minL minR f1 f2 f3 f4 f5 =
        if minL < minR then [f1, f2, f3, f4, f5] else [f1, f2, f3, f4, f5].reverse)
  ∧ (∀ minB minT : ℚ, orderedNamesAlongDepth minB minT =
        if minB < minT then namesAlongDepthAscending
        else namesAlongDepthAscending.reverse)
  ∧ (∀ minB minT fB fT fD : ℚ,
      orderedFactorsAlongDepth minB minT fB fT fD =
        if minB < minT then [fB, fT, fD] else [fB, fT, fD].reverse) := by
  refine ⟨?_, ?_, ?_, ?_, ?_, ?_⟩
  · intro minL minR
    unfold orderedNamesAlongLength namesAlongLengthAscending
    by_cases h : minL < minR
    · rw [if_pos h, if_pos h]
    · rw [if_neg h, if_neg h]
      rfl
  · intro minL minR f1 f2 f3 f4 f5
    unfold orderedFactorsAlongLength
    by_cases h : minL < minR
    · rw [if_pos h, if_pos h]
    · rw [if_neg h, if_neg h]
      rfl
  · intro minL minR
    unfold orderedNamesAlongWidth namesAlongWidthAscending
    by_cases h : minL < minR
    · rw [if_pos h, if_pos h]
    · rw [if_neg h, if_neg h]
      rfl
  · intro minL minR f1 f2 f3 f4 f5
    unfold orderedFactorsAlongWidth
    by_cases h : minL < minR
    · rw [if_pos h, if_pos h]
    · rw [if_neg h, if_neg h]
      rfl
  · intro minB minT
    unfold orderedNamesAlongDepth namesAlongDepthAscending
    by_cases h : minB < minT
    · rw [if_pos h, if_pos h]
    · rw [if_neg h, if_neg h]
      rfl
  · intro minB minT fB fT fD
    unfold orderedFactorsAlongDepth
    by_cases h : minB < minT
    · rw [if_pos h, if_pos h]
    · rw [if_neg h, if_neg h]
      rfl

/-- A sample per-set summary table for the Depth axis: the DepthBottom set has
minimum 0, the DepthTop set has minimum 1, and the DepositDepth set has
minimum 0. -/
def depthSample : List SetSummary :=
  [⟨"setControllingBasePlateDepthBottom", 0, 0⟩,
   ⟨"setControllingBasePlateDepthTop", 1, 1⟩,
   ⟨"setControllingDepositDepth", 0, 0⟩]

/-- C5 counterexample: the claim predicts the Depth ordering from comparing
`setControllingBasePlateDepthBottom` (min 0) with
`setControllingBasePlateDepthTop` (min 1); since 0 < 1 it predicts the
ascending order.  The code instead compares against
`setControllingDepositDepth` (min 0, line 115 of the source) and produces the
reversed order. -/
theorem C5_depth_ordering_counterexample :
    boundaryMin depthSample "setControllingBasePlateDepthBottom" = some 0
  ∧ boundaryMin depthSample "setControllingBasePlateDepthTop" = some 1
  ∧ ((0 : ℚ) < 1)
  ∧ orderingAlongDepth depthSample 1 1 1
      = some (["setControllingDepositDepth",
               "setControllingBasePlateDepthTop",
               "setControllingBasePlateDepthBottom"], [1, 1, 1]) := by
  refine ⟨by decide, by decide, by decide, by decide⟩

/-- C5 amended: the Depth ordering direction is inferred by comparing the
minimum Z of `setControllingBasePlateDepthBottom` against the minimum Z of
`setControllingDepositDepth`; `setControllingBasePlateDepthTop` is not
consulted by the comparison (it participates as a controlling region of the
Depth ordered list instead). -/
theorem C5_depth_ordering_amended (summaries : List SetSummary) (fB fT fD b t : ℚ)
    (hb : boundaryMin summaries "setControllingBasePlateDepthBottom" = some b)
    (ht : boundaryMin summaries "setControllingDepositDepth" = some t) :
    orderingAlongDepth summaries fB fT fD =
      some (if b < t then namesAlongDepthAscending
            else namesAlongDepthAscending.reverse,
            if b < t then [fB, fT, fD] else [fB, fT, fD].reverse) := by
  unfold orderingAlongDepth
  simp only [hb, ht]
  unfold orderedNamesAlongDepth orderedFactorsAlongDepth namesAlongDepthAscending
  by_cases h : b < t
  · rw [if_pos h, if_pos h, if_pos h, if_pos h]
  · rw [if_neg h, if_neg h, if_neg h, if_neg h]
    rfl

/-- Concrete instantiation of `C5_depth_ordering_amended` on `depthSample`:
bottom minimum 0, DepositDepth minimum 0, hence the reversed branch. -/
theorem C5_depth_ordering_amended_witness :
    orderingAlongDepth depthSample 1 1 1
      = some (if (0 : ℚ) < 0 then namesAlongDepthAscending
              else namesAlongDepthAscending.reverse,
              if (0 : ℚ) < 0 then [1, 1, 1] else ([1, 1, 1] : List ℚ).reverse) :=
  C5_depth_ordering_amended depthSample 1 1 1 0 0 (by decide) (by decide)

lemma summarize_none_of_empty {coords : List ℚ} {sets : List NodeSet} {st : NodeSet}
    (hst : st ∈ sets) (hnil : st.nodes = ([] : List Nat)) :
    summarize coords sets = none := by
  induction sets with
  | nil => cases hst
  | cons st0 rest ih =>
    cases List.mem_cons.mp hst with
    | inl he =>
      subst he
      have h0 : summarizeSet coords st = none := by
        simp [summarizeSet, hnil, setCoords, listMin]
      simp [summarize, h0]
    | inr he =>
      have h0 := ih he
      cases hs : summarizeSet coords st0 with
      | none => simp [summarize, hs]
      | some s => simp [summarize, hs, h0]

/-- C6 counterexample: a NodeSet with zero members is NOT permitted — the
per-set bounds loop computes `min` of an empty coordinate list (ValueError,
modelled `none`) and the whole axis run fails. -/
theorem C6_empty_set_counterexample :
    summarize [0] [⟨"A", []⟩] = none
  ∧ processAxis [⟨"A", []⟩] [0] ["A"] [1] = none := by
  refine ⟨by decide, by decide⟩

/-- C6 amended: a NodeSet with zero member nodes makes the program fail
(Python raises ValueError on `min([])` in the per-set bounds loop); a
degenerate region whose resolved bounds coincide is processed and contributes
zero dimensional change to the running translation. -/
theorem C6_empty_set_amended :
    (∀ (coords : List ℚ) (sets : List NodeSet),
       (∃ st ∈ sets, st.nodes = ([] : List Nat)) → summarize coords sets = none)
  ∧ (∀ (sets : List NodeSet) (coords factors : List ℚ) (bounds : List (ℚ × ℚ))
       (nm : String) (rest : List String) (k : Nat) (T : ℚ) (scaled : List ℚ)
       (m f : ℚ), bounds.get? k = some (m, m) → factors.get? k = some f →
       scaleRegions sets coords factors bounds (nm :: rest) k T scaled
         = (assignSets coords nm m f T sets scaled).bind
             (fun s2 => scaleRegions sets coords factors bounds rest (k + 1) T s2)) := by
  constructor
  · rintro coords sets ⟨st, hst, hnil⟩
    exact summarize_none_of_empty hst hnil
  · intro sets coords factors bounds nm rest k T scaled m f hb hf
    simp only [scaleRegions, hb, hf]
    have hT : T + (m - m) * (f - 1) = T := by ring
    rw [hT]
    cases assignSets coords nm m f T sets scaled with
    | none => rfl
    | some s2 => rfl

/-- Concrete instantiation of `C6_empty_set_amended`. -/
theorem C6_empty_set_amended_witness :
    summarize ([0] : List ℚ) [⟨"A", ([] : List Nat)⟩] = none
  ∧ scaleRegions [] [] [2] [((3 : ℚ), (3 : ℚ))] ["A"] 0 5 []
      = (assignSets [] "A" 3 2 5 [] []).bind
          (fun s2 => scaleRegions [] [] [2] [((3 : ℚ), (3 : ℚ))] [] 1 5 s2) :=
  ⟨C6_empty_set_amended.1 [0] [⟨"A", []⟩] ⟨⟨"A", []⟩, by decide, rfl⟩,
   C6_empty_set_amended.2 [] [] [2] [(3, 3)] "A" [] 0 5 [] 3 2 (by decide) (by decide)⟩

/-- C7 counterexample: two sets (`"A"`, bounds (0,0)) and (`"a"`, bounds
(10,10)) match role "A" case-insensitively, and `"B"` (bounds (5,5)) matches
role "B".  The run scales region "A" with the FIRST match's bounds — node 2
gets `0 + 0 + (10 - 0) * 2 = 20`, not the `10 + (10 - 10) * 2 = 10` the last
match's bounds would give — and region "B" is mis-paired with the duplicate's
bounds (10,10) — node 3 gets `0 + 10 + (5 - 10) * 3 = -5`, not the
`0 + 5 + (5 - 5) * 3 = 5` its own bounds would give. -/
theorem C7_duplicate_match_counterexample :
    processAxis [⟨"A", [1]⟩, ⟨"a", [2]⟩, ⟨"B", [3]⟩] [0, 10, 5] ["A", "B"] [2, 3]
        = some [0, 20, -5]
  ∧ ((0 : ℚ) + 10 + ((10 : ℚ) - 10) * 2 = 10) ∧ ((20 : ℚ) ≠ 10)
  ∧ ((0 : ℚ) + 5 + ((5 : ℚ) - 5) * 3 = 5) ∧ ((-5 : ℚ) ≠ 5) := by
  refine ⟨by decide, by decide, by decide, by decide, by decide⟩

/-- C7 amended: when more than one NodeSet matches a required role name, the
bounds-resolution loop appends one (min, max) pair per matching set, so the
scaling loop processes the duplicated role with the FIRST match's bounds, and
the next loop iteration reads the SECOND match's bounds at ordinal position 1
— every later region's bounds are shifted out of pairing with their role names
and scale factors. -/
theorem C7_duplicate_match_amended (sets : List NodeSet) (coords : List ℚ)
    (summaries : List SetSummary) (nm : String) (rest : List String)
    (p1 p2 q1 q2 f : ℚ) (factors : List ℚ) (T : ℚ) (scaled : List ℚ)
    (hm : matchBounds summaries nm = [(p1, p2), (q1, q2)])
    (hf : factors.get? 0 = some f) :
    (boundsForOrdering summaries (nm :: rest)).get? 0 = some (p1, p2)
  ∧ (boundsForOrdering summaries (nm :: rest)).get? 1 = some (q1, q2)
  ∧ scaleRegions sets coords factors (boundsForOrdering summaries (nm :: rest))
      (nm :: rest) 0 T scaled
      = (assignSets coords nm p1 f T sets scaled).bind
          (fun s2 => scaleRegions sets coords factors
            (boundsForOrdering summaries (nm :: rest)) rest 1
            (T + (p2 - p1) * (f - 1)) s2) := by
  have hb : boundsForOrdering summaries (nm :: rest)
      = (p1, p2) :: (q1, q2) :: boundsForOrdering summaries rest := by
    show matchBounds summaries nm ++ boundsForOrdering summaries rest = _
    rw [hm]
    rfl
  refine ⟨by rw [hb]; rfl, by rw [hb]; rfl, ?_⟩
  rw [hb]
  simp only [scaleRegions, List.get?_cons_zero, hf]
  cases assignSets coords nm p1 f T sets scaled with
  | none => rfl
  | some s2 => rfl

/-- Concrete instantiation of `C7_duplicate_match_amended` on the summaries of
the counterexample mesh. -/
theorem C7_duplicate_match_amended_witness :
    (boundsForOrdering [⟨"A", 0, 0⟩, ⟨"a", 10, 10⟩, ⟨"B", 5, 5⟩] ["A", "B"]).get? 0
        = some ((0 : ℚ), (0 : ℚ))
  ∧ (boundsForOrdering [⟨"A", 0, 0⟩, ⟨"a", 10, 10⟩, ⟨"B", 5, 5⟩] ["A", "B"]).get? 1
        = some ((10 : ℚ), (10 : ℚ))
  ∧ scaleRegions [] [] [2, 3]
      (boundsForOrdering [⟨"A", 0, 0⟩, ⟨"a", 10, 10⟩, ⟨"B", 5, 5⟩] ["A", "B"])
      ["A", "B"] 0 0 []
      = (assignSets [] "A" 0 2 0 [] []).bind
          (fun s2 => scaleRegions [] [] [2, 3]
            (boundsForOrdering [⟨"A", 0, 0⟩, ⟨"a", 10, 10⟩, ⟨"B", 5, 5⟩] ["A", "B"])
            ["B"] 1 (0 + ((0 : ℚ) - 0) * (2 - 1)) s2) :=
  C7_duplicate_match_amended [] [] [⟨"A", 0, 0⟩, ⟨"a", 10, 10⟩, ⟨"B", 5, 5⟩]
    "A" ["B"] 0 0 10 10 2 [2, 3] 0 [] (by decide) (by decide)

/-- C9: for a successful axis run, every node that belongs to at least one
region of the Ordered Region List ends the pass carrying the assignment of its
last containing region, while every node belonging to no region of the list
retains the sentinel 1E20, and the output writer copies that sentinel
unchanged into the node's output row. -/
theorem C9_sentinel_and_assignment (sets : List NodeSet) (coords : List ℚ)
    (rs : List Region) (out : List ℚ) (i : Nat)
    (hall : ∀ st ∈ sets, ∀ x ∈ st.nodes, 1 ≤ x)
    (hrun : runAxis sets coords rs = some out)
    (hi : i < coords.length) :
    ((∀ j rj, rs.get? j = some rj → nodeInRegion sets rj.name (i + 1) = false) →
      out.get? i = some SENTINEL ∧
      ∀ (nds : List Nat) (xs zs : List ℚ) (rows : List (Nat × ℚ × ℚ × ℚ)) (nd : Nat),
        writeOutput nds xs out zs = some rows → nds.get? i = some nd →
        ∃ x z, rows.get? i = some (nd, x, SENTINEL, z))
  ∧ ((∃ j rj, rs.get? j = some rj ∧ nodeInRegion sets rj.name (i + 1) = true) →
      ∃ k r c, rs.get? k = some r ∧ nodeInRegion sets r.name (i + 1) = true ∧
        (∀ j rj, k < j → rs.get? j = some rj →
          nodeInRegion sets rj.name (i + 1) = false) ∧
        pyGet coords (((i + 1 : Nat) : Int) - 1) = some c ∧
        out.get? i = some (transAt rs k + r.rmin + (c - r.rmin) * r.factor)) := by
  constructor
  · intro hnone
    have hni : ∀ r ∈ rs, nodeInRegion sets r.name (i + 1) = false := by
      intro r hr
      obtain ⟨j, hj⟩ := List.get?_of_mem hr
      exact hnone j r hj
    have hout : out.get? i = some SENTINEL := by
      rw [runAxis_eq_aligned] at hrun
      rw [scaleRegionsAligned_get_other hall hni hrun]
      exact get?_replicate SENTINEL coords.length i hi
    refine ⟨hout, ?_⟩
    intro nds xs zs rows nd hw hnd
    obtain ⟨x, y, z, hx, hy, hz, hrow⟩ := writeOutput_get hw hnd
    rw [hout] at hy
    cases hy
    exact ⟨x, z, hrow⟩
  · intro hex
    obtain ⟨k, r, hk, hmem, hlastk⟩ := exists_last_region hex
    rw [runAxis_eq_aligned] at hrun
    obtain ⟨c, hc, hval⟩ :=
      scaleRegionsAligned_last hall hk hmem hlastk (by omega) hrun
    refine ⟨k, r, c, hk, hmem, hlastk, hc, ?_⟩
    have hidx : (i + 1) - 1 = i := by omega
    rw [← hidx, hval]
    unfold writeVal
    rw [zero_add]

/-- Concrete instantiation of `C9_sentinel_and_assignment` at index 1 (node 2),
which belongs to no region: the sentinel survives and is written out. -/
theorem C9_sentinel_and_assignment_witness :
    ((∀ j rj, ([⟨"A", 1, 0, 0⟩] : List Region).get? j = some rj →
        nodeInRegion [⟨"A", [1]⟩] rj.name (1 + 1) = false) →
      ([0, SENTINEL] : List ℚ).get? 1 = some SENTINEL ∧
      ∀ (nds : List Nat) (xs zs : List ℚ) (rows : List (Nat × ℚ × ℚ × ℚ)) (nd : Nat),
        writeOutput nds xs [0, SENTINEL] zs = some rows → nds.get? 1 = some nd →
        ∃ x z, rows.get? 1 = some (nd, x, SENTINEL, z))
  ∧ ((∃ j rj, ([⟨"A", 1, 0, 0⟩] : List Region).get? j = some rj ∧
        nodeInRegion [⟨"A", [1]⟩] rj.name (1 + 1) = true) →
      ∃ k r c, ([⟨"A", 1, 0, 0⟩] : List Region).get? k = some r ∧
        nodeInRegion [⟨"A", [1]⟩] r.name (1 + 1) = true ∧
        (∀ j rj, k < j → ([⟨"A", 1, 0, 0⟩] : List Region).get? j = some rj →
          nodeInRegion [⟨"A", [1]⟩] rj.name (1 + 1) = false) ∧
        pyGet [0, 4] (((1 + 1 : Nat) : Int) - 1) = some c ∧
        ([0, SENTINEL] : List ℚ).get? 1
          = some (transAt [⟨"A", 1, 0, 0⟩] k + r.rmin + (c - r.rmin) * r.factor)) :=
  C9_sentinel_and_assignment [⟨"A", [1]⟩] [0, 4] [⟨"A", 1, 0, 0⟩] [0, SENTINEL] 1
    (by decide) (by decide) (by decide)

/-- C10: a NodeSet containing node id 0 raises no error — the index expression
`id - 1` evaluates to -1, which in Python selects the LAST node's coordinate —
so region bounds and scaled coordinates are silently computed from the wrong
node and written to the output rows.  In the concrete run the single set names
node 0, yet the bounds come from node 2's coordinate 7, node 2's slot gets
overwritten, and the rows are written without error. -/
theorem C10_node_id_zero :
    (∀ coords : List ℚ, coords ≠ [] →
       pyGet coords (((0 : Nat) : Int) - 1) = coords.get? (coords.length - 1))
  ∧ processAxis [⟨"A", [0]⟩] [3, 7] ["A"] [2] = some [SENTINEL, 7]
  ∧ writeOutput [1, 2] [0, 0] [SENTINEL, 7] [0, 0]
      = some [(1, 0, SENTINEL, 0), (2, 0, 7, 0)] := by
  refine ⟨?_, by decide, by decide⟩
  intro coords hne
  have hlen : 1 ≤ coords.length := List.length_pos.mpr hne
  unfold pyGet pyIndex
  rw [if_neg (by omega), if_pos (by omega)]
  have harg : ((coords.length : Int) + (((0 : Nat) : Int) - 1)).toNat
      = coords.length - 1 := by omega
  rw [harg]
  rfl

/-- Concrete instantiation of the universally quantified part of
`C10_node_id_zero`. -/
theorem C10_node_id_zero_witness :
    pyGet [3, 7] (((0 : Nat) : Int) - 1)
      = ([3, 7] : List ℚ).get? (([3, 7] : List ℚ).length - 1) :=
  C10_node_id_zero.1 [3, 7] (by decide)

end ScaleMesh
